import Mathlib

/-!
A verification development for the pluginrpc-go core library.

The Go sources are shallowly embedded: Go strings become lists of
characters (`Str`), Go `error` values become the inductive `GoErr`,
nilable pointers become `Option`, and fallible functions return `Except`.
External dependencies (the protobuf codecs, `net/url`, the compiled arg
regexp) are modelled at the level of their observable behaviour: codecs
are treated as injective envelope encodings or passed in as decoder
functions, while `url.ParseRequestURI` and the regexp are modelled
faithfully from their semantics, since the embedded code calls them.
-/

namespace Pluginrpc

/-- Go strings, modelled as lists of characters. -/
abbrev Str := List Char

/-- The characters of a Lean string literal, as a `Str`. -/
def str (s : String) : Str := s.data

/-- Byte strings crossing process boundaries (stdin/stdout payloads). -/
abbrev Bytes := List Nat

/-- Code (code.go): error codes are a uint32; the valid codes are 1..16.
`CodeCanceled = 1` (minCode) through `CodeUnauthenticated = 16` (maxCode). -/
def CodeCanceled : Nat := 1

/-- CodeUnknown (code.go). -/
def CodeUnknown : Nat := 2

/-- CodeInternal (code.go). -/
def CodeInternal : Nat := 13

/-- isValidCode (code.go): `code >= minCode && code <= maxCode`. -/
def isValidCode (code : Nat) : Bool := 1 ≤ code && code ≤ 16

/-- Code.String (code.go): the name of each valid code, else `code_%d`. -/
def codeString : Nat → Str
  | 1 => str "canceled"
  | 2 => str "unknown"
  | 3 => str "invalid_argument"
  | 4 => str "deadline_exceeded"
  | 5 => str "not_found"
  | 6 => str "already_exists"
  | 7 => str "permission_denied"
  | 8 => str "resource_exhausted"
  | 9 => str "failed_precondition"
  | 10 => str "aborted"
  | 11 => str "out_of_range"
  | 12 => str "unimplemented"
  | 13 => str "internal"
  | 14 => str "unavailable"
  | 15 => str "data_loss"
  | 16 => str "unauthenticated"
  | c => str "code_" ++ str (toString c)

/-- Go `error` values reachable in this library: `base` is an error made by
`errors.New` or a non-wrapping `fmt.Errorf` (its message is the string);
`wrap` is `fmt.Errorf("<pre>%w", inner)` (message is the prefix followed by
the inner message, `Unwrap` yields `inner`); `rpcErrNil`/`rpcErrW` is a
non-nil `*pluginrpc.Error` with nil resp. non-nil underlying error;
`exitErrNil`/`exitErrW` likewise a non-nil `*pluginrpc.ExitError`. The
nil/non-nil split of the underlying error is encoded in the constructor. -/
inductive GoErr : Type where
  | base (msg : Str)
  | wrap (pre : Str) (inner : GoErr)
  | rpcErrNil (code : Nat)
  | rpcErrW (code : Nat) (underlying : GoErr)
  | exitErrNil (exitCode : Int)
  | exitErrW (exitCode : Int) (underlying : GoErr)
deriving Repr, DecidableEq

/-- A non-nil `*Error` (code, underlying) used as a Go `error` value. -/
def rpcErrOf (code : Nat) : Option GoErr → GoErr
  | none => .rpcErrNil code
  | some u => .rpcErrW code u

/-- A non-nil `*ExitError` (exit code, underlying) used as a Go `error`
value. -/
def exitErrOf (exitCode : Int) : Option GoErr → GoErr
  | none => .exitErrNil exitCode
  | some u => .exitErrW exitCode u

/-- Error.Error / ExitError.Error (on non-nil receivers) and the message of
plain errors: what `err.Error()` returns for each modelled error. -/
def errMsg : GoErr → Str
  | .base m => m
  | .wrap pre inner => pre ++ errMsg inner
  | .rpcErrNil code => str "Failed with code " ++ codeString code
  | .rpcErrW code u => str "Failed with code " ++ codeString code ++ str ": " ++ errMsg u
  | .exitErrNil code => str "Exited with code " ++ str (toString code)
  | .exitErrW code u =>
      str "Exited with code " ++ str (toString code) ++ str ": " ++ errMsg u

/-- Error (part_009): `{code Code; underlying error}`, always handled through
a non-nil pointer here; a nil `*Error` is `none : Option ErrorS`. -/
structure ErrorS where
  code : Nat
  underlying : Option GoErr
deriving Repr, DecidableEq

/-- An `*Error` used as a Go `error` value. -/
def ErrorS.toGoErr (e : ErrorS) : GoErr := rpcErrOf e.code e.underlying

/-- newInvalidCodeError (part_009): rewrites to CodeInternal, wrapping the
old underlying with `fmt.Errorf("Error created with code %v: %w", ...)`;
when the underlying is nil, `%w` renders as the literal `%!w(<nil>)` and
nothing is wrapped. -/
def newInvalidCodeError (e : ErrorS) : ErrorS :=
  { code := CodeInternal,
    underlying := some (match e.underlying with
      | some u => .wrap (str "Error created with code " ++ codeString e.code ++ str ": ") u
      | none =>
          .base (str "Error created with code " ++ codeString e.code ++ str ": %!w(<nil>)")) }

/-- newNilUnderlyingError (part_009). -/
def newNilUnderlyingError (e : ErrorS) : ErrorS :=
  { code := CodeInternal,
    underlying :=
      some (.base (str "Error created with code " ++ codeString e.code
        ++ str " and nil underlying error")) }

/-- newEmptyUnderlyingError (part_009). -/
def newEmptyUnderlyingError (e : ErrorS) : ErrorS :=
  { code := CodeInternal,
    underlying :=
      some (.base (str "Error created with code " ++ codeString e.code
        ++ str " and empty underlying error")) }

/-- validateError (part_009): invalid code, then nil underlying, then empty
underlying message are each rewritten; otherwise the error is returned as is. -/
def validateError (e : ErrorS) : ErrorS :=
  if ¬ isValidCode e.code then newInvalidCodeError e
  else match e.underlying with
    | none => newNilUnderlyingError e
    | some u => if errMsg u = [] then newEmptyUnderlyingError e else e

/-- NewError (part_009): builds the error and normalizes it. -/
def NewError (code : Nat) (underlying : Option GoErr) : ErrorS :=
  validateError { code := code, underlying := underlying }

/-- errors.As specialised to `*Error`: walks the Unwrap chain for the first
non-nil `*pluginrpc.Error`. -/
def findRpcErr : GoErr → Option ErrorS
  | .rpcErrNil code => some ⟨code, none⟩
  | .rpcErrW code u => some ⟨code, some u⟩
  | .wrap _ inner => findRpcErr inner
  | .exitErrW _ u => findRpcErr u
  | .exitErrNil _ => none
  | .base _ => none

/-- WrapError (part_009): nil stays nil; an error whose chain holds an
`*Error` yields that error re-validated; otherwise CodeUnknown wraps it. -/
def WrapError : Option GoErr → Option ErrorS
  | none => none
  | some err =>
    match findRpcErr err with
    | some e => some (validateError e)
    | none => some (NewError CodeUnknown (some err))

/-- Error.Code (part_009): 0 on a nil receiver. -/
def ErrorCode : Option ErrorS → Nat
  | none => 0
  | some e => e.code

/-- Error.Error (part_009): empty string on a nil receiver. -/
def ErrorErrorString : Option ErrorS → Str
  | none => []
  | some e => errMsg e.toGoErr

/-- Error.Unwrap (part_009): nil on a nil receiver. -/
def ErrorUnwrap : Option ErrorS → Option GoErr
  | none => none
  | some e => e.underlying

/-- pluginrpcv1.Error (the wire error): a code enum value and a message. -/
structure ProtoError where
  code : Nat
  message : Str
deriving Repr, DecidableEq

/-- Code.ToProto (code.go): the same numeral when valid, else an error. -/
def CodeToProto (c : Nat) : Except Str Nat :=
  if isValidCode c then .ok c else .error (str "unknown Code: " ++ codeString c)

/-- CodeForProto (code.go): the same numeral when valid, else an error. -/
def CodeForProto (protoCode : Nat) : Except Str Nat :=
  if isValidCode protoCode then .ok protoCode
  else .error (str "unknown pluginrpcv1.Code: " ++ codeString protoCode)

/-- Error.ToProto (part_009): nil maps to nil; otherwise the receiver is
re-validated, its (then valid) code converted, and the message taken from
the validated underlying error. The invalid-code branch is unreachable
after validation but embedded all the same. -/
def ErrorToProto : Option ErrorS → Option ProtoError
  | none => none
  | some e =>
    let v := validateError e
    match CodeToProto v.code with
    | .error errStr =>
        some ⟨CodeInternal,
          str "Error created with invalid code: "
            ++ (match e.underlying with | some u => errMsg u | none => [])
            ++ str ": " ++ errStr⟩
    | .ok protoCode =>
        some ⟨protoCode, match v.underlying with | some u => errMsg u | none => []⟩

/-- NewErrorForProto (part_009): nil maps to nil; an invalid wire code is
reported as CodeInternal wrapping the conversion error; otherwise the code
carries over and the message becomes the underlying error. -/
def NewErrorForProto : Option ProtoError → Option ErrorS
  | none => none
  | some pe =>
    match CodeForProto pe.code with
    | .error errStr =>
        some (NewError CodeInternal
          (some (.wrap (str "Error created with invalid code: " ++ pe.message ++ str ": ")
            (.base errStr))))
    | .ok code => some (NewError code (some (.base pe.message)))

/-- exitCodeInternal (exit_error.go). -/
def exitCodeInternal : Int := 1

/-- ExitError (exit_error.go): an exit code and an optional underlying error;
a nil `*ExitError` is `none : Option ExitErrorS`. -/
structure ExitErrorS where
  exitCode : Int
  underlying : Option GoErr
deriving Repr, DecidableEq

/-- An `*ExitError` used as a Go `error` value. -/
def ExitErrorS.toGoErr (e : ExitErrorS) : GoErr := exitErrOf e.exitCode e.underlying

/-- ExitError.ExitCode (exit_error.go): 0 on a nil receiver. -/
def ExitErrorExitCode : Option ExitErrorS → Int
  | none => 0
  | some e => e.exitCode

/-- ExitError.Error (exit_error.go): empty string on a nil receiver. -/
def ExitErrorErrorString : Option ExitErrorS → Str
  | none => []
  | some e => errMsg e.toGoErr

/-- ExitError.Unwrap (exit_error.go): nil on a nil receiver. -/
def ExitErrorUnwrap : Option ExitErrorS → Option GoErr
  | none => none
  | some e => e.underlying

/-- newInvalidCodeExitError (exit_error.go): exit code 1, underlying
`fmt.Errorf("ExitError created with code %d: %w", e.ExitCode(), e)`. -/
def newInvalidCodeExitError (e : ExitErrorS) : ExitErrorS :=
  { exitCode := exitCodeInternal,
    underlying :=
      some (.wrap (str "ExitError created with code " ++ str (toString e.exitCode) ++ str ": ")
        e.toGoErr) }

/-- validateExitError (exit_error.go): exit code 0 is rewritten. -/
def validateExitError (e : ExitErrorS) : ExitErrorS :=
  if e.exitCode = 0 then newInvalidCodeExitError e else e

/-- NewExitError (exit_error.go): builds the exit error and normalizes it. -/
def NewExitError (exitCode : Int) (underlying : Option GoErr) : ExitErrorS :=
  validateExitError { exitCode := exitCode, underlying := underlying }

/-- errors.As specialised to `*ExitError`: walks the Unwrap chain for the
first non-nil `*pluginrpc.ExitError`. -/
def findExitErr : GoErr → Option ExitErrorS
  | .exitErrNil code => some ⟨code, none⟩
  | .exitErrW code u => some ⟨code, some u⟩
  | .wrap _ inner => findExitErr inner
  | .rpcErrW _ u => findExitErr u
  | .rpcErrNil _ => none
  | .base _ => none

/-- WrapExitError (exit_error.go): nil stays nil; an error whose chain holds
an `*ExitError` yields that exit error re-validated; otherwise exit code 1
wraps it. -/
def WrapExitError : Option GoErr → Option ExitErrorS
  | none => none
  | some err =>
    match findExitErr err with
    | some e => some (validateExitError e)
    | none => some (NewExitError exitCodeInternal (some err))

/-- ASCII lower- or upper-case letter. -/
def isAlphaChar (c : Char) : Bool :=
  (('a' ≤ c) && (c ≤ 'z')) || (('A' ≤ c) && (c ≤ 'Z'))

/-- ASCII digit. -/
def isDigitChar (c : Char) : Bool := ('0' ≤ c) && (c ≤ '9')

/-- ASCII hex digit (net/url ishex). -/
def isHexChar (c : Char) : Bool :=
  isDigitChar c || (('a' ≤ c) && (c ≤ 'f')) || (('A' ≤ c) && (c ≤ 'F'))

/-- net/url unhex: the value of a hex digit. -/
def unhex (c : Char) : Nat :=
  if isDigitChar c then c.toNat - 48
  else if ('a' ≤ c) && (c ≤ 'f') then c.toNat - 87
  else if ('A' ≤ c) && (c ≤ 'F') then c.toNat - 55
  else 0

/-- Escape modes of net/url used on the paths this library parses. -/
inductive EncMode : Type where
  | path
  | host
  | zone
  | userPassword
deriving Repr, DecidableEq

/-- net/url shouldEscape, restricted to the modes above: whether a byte
(here an ASCII character) must be percent-encoded in the given component. -/
def shouldEscape (c : Char) (mode : EncMode) : Bool :=
  if isAlphaChar c || isDigitChar c then false
  else if (mode = EncMode.host || mode = EncMode.zone)
      && c ∈ ['!', '$', '&', Char.ofNat 39, '(', ')', '*', '+', ',', ';', '=',
              ':', '[', ']', '<', '>', Char.ofNat 34] then false
  else if c ∈ ['-', '_', '.', '~'] then false
  else if c ∈ ['$', '&', '+', ',', '/', ':', ';', '=', '?', '@'] then
    match mode with
    | .path => c = '?'
    | .userPassword => c = '@' || c = '/' || c = '?' || c = ':'
    | _ => true
  else true

/-- net/url unescape, success only: checks that every `%` starts a valid
escape and (in host/zone mode) that no byte needs escaping; the decoded
string itself is never used by this library's validation. -/
def unescapeOk (mode : EncMode) : Str → Bool
  | [] => true
  | '%' :: c1 :: c2 :: cs =>
    if ¬ (isHexChar c1 && isHexChar c2) then false
    else if mode = EncMode.host && unhex c1 < 8 && ¬ (c1 = '2' && c2 = '5') then false
    else if mode = EncMode.zone
        && (¬ (c1 = '2' && c2 = '5') && unhex c1 * 16 + unhex c2 ≠ 32
            && shouldEscape (Char.ofNat (unhex c1 * 16 + unhex c2)) EncMode.host) then false
    else unescapeOk mode cs
  | '%' :: _ => false
  | '+' :: cs => unescapeOk mode cs
  | c :: cs =>
    if (mode = EncMode.host || mode = EncMode.zone) && c.toNat < 128 && shouldEscape c mode
    then false
    else unescapeOk mode cs

/-- net/url validOptionalPort: empty, or `:` followed by digits only. -/
def validOptionalPort : Str → Bool
  | [] => true
  | ':' :: rest => rest.all isDigitChar
  | _ => false

/-- net/url validUserinfo. -/
def validUserinfo (s : Str) : Bool :=
  s.all fun c =>
    isAlphaChar c || isDigitChar c ||
    c ∈ ['-', '.', '_', ':', '~', '!', '$', '&', Char.ofNat 39, '(', ')', '*',
         '+', ',', ';', '=', '%', '@']

/-- Whether `s` starts with the pattern `pat`. -/
def leadsWith : Str → Str → Bool
  | [], _ => true
  | _ :: _, [] => false
  | p :: ps, c :: cs => (p = c) && leadsWith ps cs

/-- Index of the first occurrence of `pat` in the string (strings.Index). -/
def indexOfSub (pat : Str) : Str → Option Nat
  | [] => if pat = [] then some 0 else none
  | c :: cs =>
    if leadsWith pat (c :: cs) then some 0
    else (indexOfSub pat cs).map (· + 1)

/-- Index of the last occurrence of a character (strings.LastIndex). -/
def lastIndexOfChar (s : Str) (c : Char) : Option Nat :=
  match s with
  | [] => none
  | a :: rest =>
    match lastIndexOfChar rest c with
    | some i => some (i + 1)
    | none => if a = c then some 0 else none

/-- The prefix of `s` before the first occurrence of `c` (all of `s` when
absent). -/
def takeUntilChar (s : Str) (c : Char) : Str := s.takeWhile (· ≠ c)

/-- The suffix of `s` from the first occurrence of `c` (empty when absent). -/
def dropFromChar (s : Str) (c : Char) : Str := s.dropWhile (· ≠ c)

/-- net/url parseHost, success only. -/
def parseHostOk (host : Str) : Bool :=
  if host.head? = some '[' then
    match lastIndexOfChar host ']' with
    | none => false
    | some i =>
      if ¬ validOptionalPort (host.drop (i + 1)) then false
      else
        match indexOfSub (str "%25") (host.take i) with
        | some zone =>
          unescapeOk EncMode.host (host.take zone)
            && unescapeOk EncMode.zone ((host.take i).drop zone)
            && unescapeOk EncMode.host (host.drop i)
        | none => unescapeOk EncMode.host host
  else
    (match lastIndexOfChar host ':' with
     | some i => validOptionalPort (host.drop i)
     | none => true)
    && unescapeOk EncMode.host host

/-- net/url parseAuthority, success only: the host after the last `@` must
parse, and any userinfo before it must be valid and well-escaped. -/
def parseAuthorityOk (authority : Str) : Bool :=
  match lastIndexOfChar authority '@' with
  | none => parseHostOk authority
  | some i =>
    parseHostOk (authority.drop (i + 1))
      && (let userinfo := authority.take i
          validUserinfo userinfo
            && (if userinfo.contains ':' then
                  unescapeOk EncMode.userPassword (takeUntilChar userinfo ':')
                    && unescapeOk EncMode.userPassword ((dropFromChar userinfo ':').drop 1)
                else unescapeOk EncMode.userPassword userinfo))

/-- net/url getScheme: splits a leading `scheme:`; `acc` is the scheme
scanned so far, `orig` the whole input. Returns `(scheme, rest)` or an
error (a `:` in position 0). -/
def getSchemeAux (acc : Str) (rest : Str) (orig : Str) : Except Str (Str × Str) :=
  match rest with
  | [] => .ok ([], orig)
  | c :: cs =>
    if isAlphaChar c then getSchemeAux (acc ++ [c]) cs orig
    else if isDigitChar c || c = '+' || c = '-' || c = '.' then
      if acc = [] then .ok ([], orig) else getSchemeAux (acc ++ [c]) cs orig
    else if c = ':' then
      if acc = [] then .error (str "missing protocol scheme") else .ok (acc, cs)
    else .ok ([], orig)

/-- net/url stringContainsCTLByte: an ASCII control character. -/
def containsCTL (s : Str) : Bool := s.any fun c => c.toNat < 32 || c.toNat = 127

/-- Model of Go's `url.ParseRequestURI` (net/url parse with viaRequest),
success only: rejects control characters and the empty string, accepts the
literal `*`, splits a scheme and a query, then accepts rootless opaque
URIs with a scheme, parses an authority after `//` under a scheme, and
checks percent-escapes of the path; everything else is rejected. -/
def parseRequestURI (rawURL : Str) : Bool :=
  if containsCTL rawURL then false
  else if rawURL = [] then false
  else if rawURL = ['*'] then true
  else
    match getSchemeAux [] rawURL rawURL with
    | .error _ => false
    | .ok (scheme, rest0) =>
      let rest :=
        if rest0.getLast? = some '?' && ¬ (rest0.dropLast.contains '?') then rest0.dropLast
        else takeUntilChar rest0 '?'
      if rest.head? ≠ some '/' then
        -- rootless: opaque success under a scheme, otherwise
        -- "invalid URI for request"
        decide (scheme ≠ [])
      else if decide (scheme ≠ []) && leadsWith (str "//") rest then
        let afterSlashes := rest.drop 2
        let authority := takeUntilChar afterSlashes '/'
        let rest1 := dropFromChar afterSlashes '/'
        parseAuthorityOk authority && unescapeOk EncMode.path rest1
      else unescapeOk EncMode.path rest

/-- minProcedureArgLength (procedure.go). -/
def minProcedureArgLength : Nat := 2

/-- The byte length of a Go string (len on a UTF-8 string). -/
def utf8Len (s : Str) : Nat := (s.map Char.utf8Size).sum

/-- A character of the classes `[a-zA-Z0-9_-]` of argRegexp. -/
def isArgWordChar (c : Char) : Bool := isAlphaChar c || isDigitChar c || c = '_' || c = '-'

/-- Matcher for the tail `[a-zA-Z0-9_-]*[a-zA-Z0-9]$` of argRegexp. -/
def argTail : Str → Bool
  | [] => false
  | [c] => isAlphaChar c || isDigitChar c
  | c :: cs => isArgWordChar c && argTail cs

/-- Model of `argRegexp.MatchString` (procedure.go): the compiled regexp
`^[a-zA-Z0-9][a-zA-Z0-9_-]*[a-zA-Z0-9]$`. -/
def argRegexpMatch : Str → Bool
  | [] => false
  | c :: cs => (isAlphaChar c || isDigitChar c) && argTail cs

/-- Procedure (procedure.go): a path and optional args. -/
structure Procedure where
  path : Str
  args : List Str
deriving Repr, DecidableEq

/-- The arg loop of validateProcedure (procedure.go): each arg must be of
byte length at least 2 and match argRegexp. -/
def validateProcedureArgs : List Str → Except Str Unit
  | [] => .ok ()
  | arg :: rest =>
    if utf8Len arg < minProcedureArgLength then
      .error (str "arg must be at least length 2")
    else if ¬ argRegexpMatch arg then
      .error (str "arg must only consist of characters and cannot start or end with a dash or underscore")
    else validateProcedureArgs rest

/-- validateProcedure (procedure.go): non-empty path, path accepted by
`url.ParseRequestURI`, each arg valid. Error messages are abbreviated; the
claims do not inspect them. -/
def validateProcedure (p : Procedure) : Except Str Unit :=
  if p.path = [] then .error (str "procedure path is empty")
  else if ¬ parseRequestURI p.path then .error (str "invalid procedure path")
  else validateProcedureArgs p.args

/-- newProcedure (procedure.go), with the `ProcedureWithArgs` option already
applied: `NewProcedure(path, ProcedureWithArgs(args...))`. -/
def newProcedure (path : Str) (args : List Str) : Except Str Procedure :=
  let p : Procedure := { path := path, args := args }
  match validateProcedure p with
  | .error e => .error e
  | .ok () => .ok p

/-- strings.Join of a procedure's args with a single space. -/
def joinArgs (args : List Str) : Str := (args.intersperse (str " ")).flatten

/-- The loop of validateProcedures (procedure.go): `usedPaths` and
`usedArgs` model the two Go maps as the list of keys inserted so far. -/
def validateProceduresLoop : List Procedure → List Str → List Str → Except Str Unit
  | [], _, _ => .ok ()
  | p :: rest, usedPaths, usedArgs =>
    if p.path ∈ usedPaths then .error (str "duplicate procedure path")
    else if p.args.length > 0 then
      (if joinArgs p.args ∈ usedArgs then .error (str "duplicate procedure args")
       else validateProceduresLoop rest (p.path :: usedPaths) (joinArgs p.args :: usedArgs))
    else validateProceduresLoop rest (p.path :: usedPaths) usedArgs

/-- validateProcedures (procedure.go): no duplicate path, no duplicate
space-joined non-empty args. -/
def validateProcedures (ps : List Procedure) : Except Str Unit :=
  validateProceduresLoop ps [] []

/-- spec (part_002): the procedures and the path index. The Go map is
modelled as the insertion list, most recent first (lookup takes the first
match, so a later insert shadows an earlier one, as in a Go map). -/
structure SpecS where
  procedures : List Procedure
  pathToProcedure : List (Str × Procedure)
deriving Repr, DecidableEq

/-- The `pathToProcedure` map built by newSpec's loop. -/
def buildPathMap (ps : List Procedure) : List (Str × Procedure) :=
  ps.foldl (fun m p => (p.path, p) :: m) []

/-- newSpec (part_002): empty input is an error, then the procedures are
validated for duplicates and the path index is built. -/
def newSpec (ps : List Procedure) : Except Str SpecS :=
  if ps.length = 0 then .error (str "no procedures specified")
  else
    match validateProcedures ps with
    | .error e => .error e
    | .ok () => .ok { procedures := ps, pathToProcedure := buildPathMap ps }

/-- spec.ProcedureForPath (part_002): the map lookup; nil when absent. -/
def ProcedureForPath (s : SpecS) (path : Str) : Option Procedure :=
  (s.pathToProcedure.find? fun e => decide (e.1 = path)).map (·.2)

/-- spec.Procedures (part_002) returns a clone; in the model, the list. -/
def Procedures (s : SpecS) : List Procedure := s.procedures

/-- The loop of MergeSpecs (part_002): nil inputs are skipped and the
procedures of the rest are concatenated in order. -/
def mergedProcedures (specs : List (Option SpecS)) : List Procedure :=
  specs.foldl (fun acc sp => match sp with | none => acc | some s => acc ++ Procedures s) []

/-- MergeSpecs (part_002): the concatenated procedures of the non-nil
inputs are handed to newSpec. -/
def MergeSpecs (specs : List (Option SpecS)) : Except Str SpecS :=
  newSpec (mergedProcedures specs)

/-- The paths of a procedure list, in order. -/
def pathsOf (ps : List Procedure) : List Str := ps.map (·.path)

/-- The space-joined args of the procedures with non-empty args, in order:
the keys successively inserted into usedArgsMap by validateProcedures. -/
def joinedOf (ps : List Procedure) : List Str :=
  (ps.filter fun p => p.args.length > 0).map fun p => joinArgs p.args

/-- The language of argRegexp (`^[a-zA-Z0-9][a-zA-Z0-9_-]*[a-zA-Z0-9]$`)
stated as the spec states it: a leading and a trailing alphanumeric with
only word characters, dashes and underscores between them (hence length at
least 2). -/
def argMatchesSpec (s : Str) : Prop :=
  ∃ a mid b, s = a :: (mid ++ [b])
    ∧ (isAlphaChar a || isDigitChar a) = true
    ∧ (isAlphaChar b || isDigitChar b) = true
    ∧ ∀ x ∈ mid, isArgWordChar x = true

/-- FormatBinary (proto.go): Format is a uint32; 1 is binary, 2 is JSON. -/
def FormatBinary : Nat := 1

/-- FormatJSON (proto.go). -/
def FormatJSON : Nat := 2

/-- isValidFormat (proto.go): `format >= minFormat && format <= maxFormat`. -/
def isValidFormat (format : Nat) : Bool := 1 ≤ format && format ≤ 2

/-- Format.String (proto.go). -/
def formatString (format : Nat) : Str :=
  if format = 1 then str "binary"
  else if format = 2 then str "json"
  else str "format_" ++ str (toString format)

/-- An opaque protobuf payload carried in a Request or Response envelope
(an `anypb.Any`): a type URL and the marshalled value bytes. -/
structure Payload where
  typeUrl : Str
  value : Bytes
deriving Repr, DecidableEq

/-- pluginrpcv1.Response: an optional payload and an optional error. -/
structure ProtoResponse where
  value : Option Payload
  error : Option ProtoError
deriving Repr, DecidableEq

/-- marshalResponse (wire.go), at envelope granularity: the codec encoding
of the well-formed envelope is treated as the envelope itself (the codec is
external and injective), so only the codecForFormat lookup can fail. The
error field is `WrapError(err).ToProto()`. -/
def marshalResponseEnvelope (format : Nat) (responseValue : Option Payload)
    (err : Option GoErr) : Except GoErr ProtoResponse :=
  if ¬ isValidFormat format then .error (.base (str "unknown Format: " ++ formatString format))
  else .ok { value := responseValue, error := ErrorToProto (WrapError err) }

/-- A stdout writer: the envelopes written so far, and the outcomes of the
upcoming writes (an entry `some e` makes the next write fail with `e`;
a missing entry means success). -/
structure WriterS where
  written : List ProtoResponse
  results : List (Option GoErr)
deriving Repr, DecidableEq

/-- One `Stdout.Write` of an envelope: on success the chunk is appended. -/
def writeStdout (st : WriterS) (chunk : ProtoResponse) : WriterS × Option GoErr :=
  match st.results with
  | [] => ({ written := st.written ++ [chunk], results := [] }, none)
  | none :: rest => ({ written := st.written ++ [chunk], results := rest }, none)
  | some e :: rest => ({ written := st.written, results := rest }, some e)

/-- handler.writeError (part_007): nil input does nothing; otherwise the
error is marshalled as a Response envelope with no payload and written to
stdout. Returns nil on success, the marshal error, or the wrapped write
error. -/
def writeError (format : Nat) (st : WriterS) (inputErr : Option GoErr) :
    WriterS × Option GoErr :=
  match inputErr with
  | none => (st, none)
  | some ie =>
    match marshalResponseEnvelope format none (some ie) with
    | .error e => (st, some e)
    | .ok chunk =>
      match writeStdout st chunk with
      | (st1, none) => (st1, none)
      | (st1, some w) => (st1, some (.wrap (str "failed to write error to stdout: ") w))

/-- The body of handler.Handle (part_007) before the deferred writeError:
read stdin, unmarshal the request (`decReq` abstracts the codec and the
request prototype; only its success is observable here), call the user
function (`handleFn` is its result: the response and the error), then
marshal and write the response. -/
def handleBody (format : Nat) (stdinResult : Except GoErr Bytes)
    (decReq : Bytes → Except GoErr Unit) (handleFn : Option Payload × Option GoErr)
    (st : WriterS) : WriterS × Option GoErr :=
  match stdinResult with
  | .error e => (st, some e)
  | .ok data =>
    match decReq data with
    | .error e => (st, some e)
    | .ok () =>
      match handleFn with
      | (_, some e) => (st, some e)
      | (response, none) =>
        match marshalResponseEnvelope format response none with
        | .error e => (st, some e)
        | .ok chunk =>
          match writeStdout st chunk with
          | (st1, none) => (st1, none)
          | (st1, some w) =>
            (st1, some (.wrap (str "failed to write response to stdout: ") w))

/-- handler.Handle (part_007), with the HandleWithFormat option already
resolved into `format`: validate the format, run the body, and under the
deferred function replace a non-nil return error by the result of writing
it to stdout. Returns the envelopes written and the returned error. -/
def Handle (format : Nat) (stdinResult : Except GoErr Bytes)
    (decReq : Bytes → Except GoErr Unit) (handleFn : Option Payload × Option GoErr)
    (writeResults : List (Option GoErr)) : List ProtoResponse × Option GoErr :=
  if ¬ isValidFormat format then
    ([], some (.base (str "unknown Format: " ++ formatString format)))
  else
    match handleBody format stdinResult decReq handleFn
        { written := [], results := writeResults } with
    | (st, none) => (st.written, none)
    | (st, some e) =>
      match writeError format st (some e) with
      | (st1, r) => (st1.written, r)

/-- unmarshalResponse (wire.go): empty bytes succeed without touching the
response; otherwise the codec (`decResp`, external) decodes the envelope, a
present payload is unmarshalled into the caller's response slot, and a
present wire error is synthesized via NewErrorForProto and returned.
Returns the final response slot and the returned error. -/
def unmarshalResponse (format : Nat) (decResp : Bytes → Except GoErr ProtoResponse)
    (data : Bytes) (responseValue : Option Payload) : Option Payload × Option GoErr :=
  if data.length = 0 then (responseValue, none)
  else if ¬ isValidFormat format then
    (responseValue, some (.base (str "unknown Format: " ++ formatString format)))
  else
    match decResp data with
    | .error e => (responseValue, some e)
    | .ok protoResponse =>
      let responseValue1 :=
        match protoResponse.value with
        | some v => some v
        | none => responseValue
      match protoResponse.error with
      | some pe =>
        (responseValue1, ((NewErrorForProto (some pe)).map ErrorS.toGoErr))
      | none => (responseValue1, none)

/-- marshalRequest (wire.go): a nil request marshals to empty bytes with no
codec involved; otherwise the format is looked up and the encoded Request
envelope (`encReq`, external codec) is produced. -/
def marshalRequest (format : Nat) (encReq : Payload → Except GoErr Bytes)
    (request : Option Payload) : Except GoErr Bytes :=
  match request with
  | none => .ok []
  | some v =>
    if ¬ isValidFormat format then
      .error (.base (str "unknown Format: " ++ formatString format))
    else encReq v

/-- Env (runner.go) as a client call passes it to the Runner: the argv and
the marshalled request on stdin. -/
structure EnvM where
  args : List Str
  stdin : Bytes
deriving Repr, DecidableEq

/-- client.Call (client.go), from the point where the Spec is already
cached (`spec`): validate the client's format, look up the procedure, keep
the procedure's args or fall back to the path, append `--format <fmt>`,
run the runner on that Env, and decode the captured stdout. The external
pieces are parameters: `encReq`/`decResp` are the codec, `runner` returns
the captured stdout bytes or an error. Returns the Envs handed to the
runner and the call's result (final response slot, returned error). -/
def clientCall (format : Nat) (spec : SpecS) (encReq : Payload → Except GoErr Bytes)
    (decResp : Bytes → Except GoErr ProtoResponse) (runner : EnvM → Except GoErr Bytes)
    (procedurePath : Str) (request : Option Payload) (responseValue : Option Payload) :
    List EnvM × (Option Payload × Option GoErr) :=
  if ¬ isValidFormat format then
    ([], (responseValue, some (.base (str "unknown Format: " ++ formatString format))))
  else
    match ProcedureForPath spec procedurePath with
    | none => ([], (responseValue, some (.base (str "no procedure for path"))))
    | some procedure =>
      match marshalRequest format encReq request with
      | .error e => ([], (responseValue, some e))
      | .ok data =>
        let args0 := procedure.args
        let args1 := if args0.length = 0 then [procedure.path] else args0
        let argv := args1 ++ [str "--" ++ str "format", formatString format]
        let env : EnvM := { args := argv, stdin := data }
        match runner env with
        | .error e =>
          ([env], (responseValue,
            some (match WrapExitError (some e) with
              | some ex => ex.toGoErr
              | none => e)))
        | .ok stdoutData =>
          ([env], unmarshalResponse format decResp stdoutData responseValue)

theorem append_ne_nil_left {a b : Str} (h : a ≠ []) : a ++ b ≠ [] := by
  intro hab
  exact h (List.append_eq_nil.mp hab).1

theorem NewError_invalid_code {code : Nat} (e : Option GoErr) (hc : isValidCode code = false) :
    NewError code e = newInvalidCodeError { code := code, underlying := e } := by
  simp [NewError, validateError, hc]

theorem NewError_nil_underlying {code : Nat} (hc : isValidCode code = true) :
    NewError code none = newNilUnderlyingError { code := code, underlying := none } := by
  simp [NewError, validateError, hc]

theorem NewError_empty_underlying {code : Nat} {u : GoErr} (hc : isValidCode code = true)
    (hu : errMsg u = []) :
    NewError code (some u) = newEmptyUnderlyingError { code := code, underlying := some u } := by
  simp [NewError, validateError, hc, hu]

theorem NewError_ok {code : Nat} {u : GoErr} (hc : isValidCode code = true)
    (hu : errMsg u ≠ []) :
    NewError code (some u) = { code := code, underlying := some u } := by
  simp [NewError, validateError, hc, hu]

/-- C7: NewError always returns an Error with a valid code and a non-nil,
non-empty underlying error; when the requested code is invalid, or the
underlying error is nil or has an empty message, the result carries
CodeInternal (13) and a non-empty explanatory message; otherwise it carries
the requested code and the given underlying error. -/
theorem C7_NewError_normalization (code : Nat) (e : Option GoErr) :
    isValidCode (NewError code e).code = true
    ∧ (∃ u, (NewError code e).underlying = some u ∧ errMsg u ≠ [])
    ∧ ((isValidCode code = false ∨ e = none ∨ (∃ u, e = some u ∧ errMsg u = [])) →
        (NewError code e).code = CodeInternal)
    ∧ (∀ u, isValidCode code = true → e = some u → errMsg u ≠ [] →
        (NewError code e).code = code ∧ (NewError code e).underlying = some u) := by
  by_cases hc : isValidCode code = true
  · cases e with
    | none =>
      rw [NewError_nil_underlying hc]
      refine ⟨rfl, ⟨_, rfl, ?_⟩, fun _ => rfl, fun u _ h => by cases h⟩
      simp only [errMsg]
      exact append_ne_nil_left (append_ne_nil_left (by decide))
    | some u =>
      by_cases hu : errMsg u = []
      · rw [NewError_empty_underlying hc hu]
        refine ⟨rfl, ⟨_, rfl, ?_⟩, fun _ => rfl, ?_⟩
        · simp only [errMsg]
          exact append_ne_nil_left (append_ne_nil_left (by decide))
        · intro u1 _ h hne
          cases h
          exact absurd hu hne
      · rw [NewError_ok hc hu]
        refine ⟨hc, ⟨u, rfl, hu⟩, ?_, ?_⟩
        · rintro (h | h | ⟨u1, h1, h2⟩)
          · rw [hc] at h; cases h
          · cases h
          · cases h1
            exact absurd h2 hu
        · intro u1 _ h _
          cases h
          exact ⟨rfl, rfl⟩
  · rw [NewError_invalid_code e (by simpa using hc)]
    have hmsg : (newInvalidCodeError { code := code, underlying := e }).underlying
        = some (match e with
          | some u => .wrap (str "Error created with code " ++ codeString code ++ str ": ") u
          | none =>
              .base (str "Error created with code " ++ codeString code
                ++ str ": %!w(<nil>)")) := rfl
    refine ⟨rfl, ?_, fun _ => rfl, ?_⟩
    · refine ⟨_, hmsg, ?_⟩
      cases e with
      | none =>
        simp only [errMsg]
        exact append_ne_nil_left (append_ne_nil_left (by decide))
      | some u =>
        simp only [errMsg]
        exact append_ne_nil_left (append_ne_nil_left (append_ne_nil_left (by decide)))
    · intro u1 h1
      exact absurd h1 hc

/-- C8: NewExitError(0, e) yields exit code 1 and wraps the offending
input; NewExitError(n, e) keeps a non-zero n; no ExitError out of
NewExitError, nor out of WrapExitError on non-nil input, has exit code 0. -/
theorem C8_NewExitError_normalization (e : Option GoErr) (n : Int) :
    ((NewExitError 0 e).exitCode = 1
      ∧ (NewExitError 0 e).underlying
          = some (.wrap (str "ExitError created with code 0: ") (exitErrOf 0 e)))
    ∧ (n ≠ 0 → (NewExitError n e).exitCode = n)
    ∧ (NewExitError n e).exitCode ≠ 0
    ∧ (∀ err : GoErr, ∀ ex : ExitErrorS, WrapExitError (some err) = some ex →
        ex.exitCode ≠ 0) := by
  refine ⟨⟨?_, ?_⟩, ?_, ?_, ?_⟩
  · simp [NewExitError, validateExitError, newInvalidCodeExitError, exitCodeInternal]
  · simp only [NewExitError, validateExitError, if_pos rfl, newInvalidCodeExitError]
    have hs : str "ExitError created with code " ++ str (toString (0 : Int)) ++ str ": "
        = str "ExitError created with code 0: " := by decide
    simp [hs, ExitErrorS.toGoErr]
  · intro hn
    simp [NewExitError, validateExitError, hn]
  · by_cases hn : n = 0
    · subst hn
      simp [NewExitError, validateExitError, newInvalidCodeExitError, exitCodeInternal]
    · simp [NewExitError, validateExitError, hn]
  · intro err ex hw
    simp only [WrapExitError] at hw
    rcases hfind : findExitErr err with _ | f
    · rw [hfind] at hw
      simp only [NewExitError, validateExitError, exitCodeInternal] at hw
      simp only [if_neg (by decide : ¬ ((1 : Int) = 0))] at hw
      cases hw
      simp
    · rw [hfind] at hw
      cases hw
      by_cases hf : f.exitCode = 0
      · simp [validateExitError, hf, newInvalidCodeExitError, exitCodeInternal]
      · simp [validateExitError, hf]

/-- C10: WrapError(nil) and WrapExitError(nil) return nil, and the methods
of Error and ExitError on a nil receiver return the documented zero values:
code 0, empty message, nil unwrap, nil proto. -/
theorem C10_nil_receiver_totality :
    WrapError none = none ∧ WrapExitError none = none
    ∧ ErrorCode none = 0 ∧ ErrorErrorString none = []
    ∧ ErrorUnwrap none = none ∧ ErrorToProto none = none
    ∧ ExitErrorExitCode none = 0 ∧ ExitErrorErrorString none = []
    ∧ ExitErrorUnwrap none = none :=
  ⟨rfl, rfl, rfl, rfl, rfl, rfl, rfl, rfl, rfl⟩

theorem WrapError_some_ne_none (e : GoErr) : ∃ es, WrapError (some e) = some es := by
  simp only [WrapError]
  rcases findRpcErr e with _ | f
  · exact ⟨_, rfl⟩
  · exact ⟨_, rfl⟩

theorem ErrorToProto_some_ne_none (es : ErrorS) : ∃ pe, ErrorToProto (some es) = some pe := by
  unfold ErrorToProto
  cases h : CodeToProto (validateError es).code <;> simp [h]

theorem NewErrorForProto_some_ne_none (pe : ProtoError) :
    ∃ es, NewErrorForProto (some pe) = some es := by
  unfold NewErrorForProto
  cases h : CodeForProto pe.code <;> simp [h]

/-- C1 (amended): when the user handle function returns a non-nil error,
the earlier steps succeed and the stdout write succeeds, Handle writes
exactly one Response envelope carrying only that error (no payload) to
stdout — and returns nil: the error is consumed by the successful write
(writeError returns nil on success), not propagated to the caller. -/
theorem C1_amended_Handle_writes_error_envelope (format : Nat) (data : Bytes)
    (decReq : Bytes → Except GoErr Unit) (response : Option Payload) (e : GoErr)
    (writeResults : List (Option GoErr))
    (hf : isValidFormat format = true)
    (hdec : decReq data = .ok ())
    (hw : writeResults.headD none = none) :
    Handle format (.ok data) decReq (response, some e) writeResults
      = ([{ value := none, error := ErrorToProto (WrapError (some e)) }], none)
    ∧ ∃ pe, ErrorToProto (WrapError (some e)) = some pe := by
  have hmar : marshalResponseEnvelope format none (some e)
      = .ok { value := none, error := ErrorToProto (WrapError (some e)) } := by
    simp [marshalResponseEnvelope, hf]
  constructor
  · cases writeResults with
    | nil =>
      simp [Handle, hf, handleBody, hdec, writeError, hmar, writeStdout]
    | cons h t =>
      have hh : h = none := by simpa using hw
      subst hh
      simp [Handle, hf, handleBody, hdec, writeError, hmar, writeStdout]
  · obtain ⟨es, hes⟩ := WrapError_some_ne_none e
    rw [hes]
    exact ErrorToProto_some_ne_none es

/-- C1 witness: a concrete successful error write; Handle emits the
envelope and returns nil. -/
theorem C1_witness_Handle_writes_error_envelope :
    Handle 1 (.ok []) (fun _ => .ok ()) (none, some (.base (str "wboom"))) [none]
      = ([{ value := none, error := ErrorToProto (WrapError (some (.base (str "wboom")))) }],
          none)
    ∧ ∃ pe, ErrorToProto (WrapError (some (.base (str "wboom")))) = some pe :=
  C1_amended_Handle_writes_error_envelope 1 [] (fun _ => .ok ()) none (.base (str "wboom"))
    [none] (by decide) rfl (by decide)

/-- C1 counterexample: the user handle function returns the non-nil error
`boom`, every write succeeds, the envelope carrying only that error is
written — and Handle returns nil, not that error, refuting the claim that
Handle returns the user error to its caller in this case. -/
theorem C1_counterexample_error_not_returned :
    (Handle 1 (.ok []) (fun _ => .ok ()) (none, some (.base (str "boom"))) []).2 = none
    ∧ (Handle 1 (.ok []) (fun _ => .ok ()) (none, some (.base (str "boom"))) []).1
        = [{ value := none, error := some { code := 2, message := str "boom" } }] := by
  constructor
  · rfl
  · rfl

/-- C9: when the decoded Response envelope carries both a payload and an
error, unmarshalResponse writes the payload into the caller's response
slot and returns the synthesized Error (both survive); and on empty input
bytes it returns nil and leaves the response slot untouched. -/
theorem C9_unmarshalResponse_payload_and_error (format : Nat)
    (decResp : Bytes → Except GoErr ProtoResponse) (data : Bytes)
    (responseValue : Option Payload) (v : Payload) (pe : ProtoError)
    (hf : isValidFormat format = true)
    (hd : data ≠ [])
    (hdec : decResp data = .ok { value := some v, error := some pe }) :
    unmarshalResponse format decResp data responseValue
      = (some v, (NewErrorForProto (some pe)).map ErrorS.toGoErr)
    ∧ (NewErrorForProto (some pe)).map ErrorS.toGoErr ≠ none
    ∧ unmarshalResponse format decResp [] responseValue = (responseValue, none) := by
  have hlen : ¬ data.length = 0 := by
    simpa [List.length_eq_zero] using hd
  refine ⟨?_, ?_, ?_⟩
  · simp [unmarshalResponse, hlen, hf, hdec]
  · obtain ⟨es, hes⟩ := NewErrorForProto_some_ne_none pe
    simp [hes]
  · simp [unmarshalResponse]

/-- C9 witness: a concrete envelope with payload and error; the payload
lands in the response slot and the error is returned. -/
theorem C9_witness_unmarshalResponse :
    unmarshalResponse 1
        (fun _ => .ok { value := some { typeUrl := str "t", value := [1] },
                        error := some { code := 4, message := str "hello" } })
        [7] none
      = (some { typeUrl := str "t", value := [1] },
         (NewErrorForProto (some { code := 4, message := str "hello" })).map ErrorS.toGoErr)
    ∧ (NewErrorForProto (some { code := 4, message := str "hello" })).map ErrorS.toGoErr
        ≠ none
    ∧ unmarshalResponse 1
        (fun _ => .ok { value := some { typeUrl := str "t", value := [1] },
                        error := some { code := 4, message := str "hello" } })
        [] none
      = (none, none) :=
  C9_unmarshalResponse_payload_and_error 1
    (fun _ => .ok { value := some { typeUrl := str "t", value := [1] },
                    error := some { code := 4, message := str "hello" } })
    [7] none { typeUrl := str "t", value := [1] } { code := 4, message := str "hello" }
    (by decide) (by decide) rfl

/-- C6: the argv a Call hands to the Runner is the procedure's args (or the
path alone when the args are empty) followed by exactly `--format` and the
client's format string. -/
theorem C6_clientCall_argv (format : Nat) (spec : SpecS)
    (encReq : Payload → Except GoErr Bytes) (decResp : Bytes → Except GoErr ProtoResponse)
    (runner : EnvM → Except GoErr Bytes) (procedurePath : Str) (P : Procedure)
    (request responseValue : Option Payload) (data : Bytes)
    (hf : isValidFormat format = true)
    (hp : ProcedureForPath spec procedurePath = some P)
    (hm : marshalRequest format encReq request = .ok data) :
    (clientCall format spec encReq decResp runner procedurePath request responseValue).1
      = [{ args := (if P.args = [] then [P.path] else P.args)
              ++ [str "--format", formatString format],
           stdin := data }] := by
  have hflag : str "--" ++ str "format" = str "--format" := by decide
  have hif : (if P.args.length = 0 then [P.path] else P.args)
      = (if P.args = [] then [P.path] else P.args) := by
    cases P.args <;> simp
  simp only [clientCall, hf, hp, hm, hflag, hif]
  cases runner { args := (if P.args = [] then [P.path] else P.args)
      ++ [str "--format", formatString format], stdin := data } <;> simp

/-- C6 witness: a concrete client call; the recorded argv is the args
followed by `--format binary`. -/
theorem C6_witness_clientCall_argv :
    (clientCall 1
        { procedures := [{ path := str "/echo", args := [str "ec", str "ho"] }],
          pathToProcedure := [(str "/echo", { path := str "/echo", args := [str "ec", str "ho"] })] }
        (fun _ => .ok []) (fun _ => .ok { value := none, error := none })
        (fun _ => .ok []) (str "/echo") none none).1
      = [{ args := (if ({ path := str "/echo", args := [str "ec", str "ho"]} : Procedure).args = []
                then [({ path := str "/echo", args := [str "ec", str "ho"] } : Procedure).path]
                else ({ path := str "/echo", args := [str "ec", str "ho"] } : Procedure).args)
              ++ [str "--format", formatString 1],
           stdin := [] }] :=
  C6_clientCall_argv 1
    { procedures := [{ path := str "/echo", args := [str "ec", str "ho"] }],
      pathToProcedure := [(str "/echo", { path := str "/echo", args := [str "ec", str "ho"] })] }
    (fun _ => .ok []) (fun _ => .ok { value := none, error := none }) (fun _ => .ok [])
    (str "/echo") { path := str "/echo", args := [str "ec", str "ho"] } none none []
    (by decide) (by decide) rfl

theorem pathsOf_cons (p : Procedure) (ps : List Procedure) :
    pathsOf (p :: ps) = p.path :: pathsOf ps := rfl

theorem joinedOf_cons_pos {p : Procedure} (ps : List Procedure) (h : p.args.length > 0) :
    joinedOf (p :: ps) = joinArgs p.args :: joinedOf ps := by
  simp [joinedOf, List.filter_cons, h]

theorem joinedOf_cons_neg {p : Procedure} (ps : List Procedure) (h : ¬ p.args.length > 0) :
    joinedOf (p :: ps) = joinedOf ps := by
  simp [joinedOf, List.filter_cons, h]

theorem validateProceduresLoop_ok_iff :
    ∀ (ps : List Procedure) (up ua : List Str),
      validateProceduresLoop ps up ua = .ok () ↔
        ((pathsOf ps).Nodup ∧ (∀ p ∈ ps, p.path ∉ up)
          ∧ (joinedOf ps).Nodup ∧ (∀ s ∈ joinedOf ps, s ∉ ua))
  | [], up, ua => by simp [validateProceduresLoop, pathsOf, joinedOf]
  | p :: rest, up, ua => by
    rw [validateProceduresLoop]
    by_cases hp : p.path ∈ up
    · rw [if_pos hp]
      constructor
      · intro h
        cases h
      · rintro ⟨-, hup, -, -⟩
        exact absurd hp (hup p (by simp))
    · rw [if_neg hp]
      by_cases ha : p.args.length > 0
      · rw [if_pos ha]
        by_cases hj : joinArgs p.args ∈ ua
        · rw [if_pos hj]
          constructor
          · intro h
            cases h
          · rintro ⟨-, -, -, hua⟩
            refine absurd hj (hua (joinArgs p.args) ?_)
            rw [joinedOf_cons_pos rest ha]
            simp
        · rw [if_neg hj]
          rw [validateProceduresLoop_ok_iff rest (p.path :: up) (joinArgs p.args :: ua)]
          rw [joinedOf_cons_pos rest ha, pathsOf_cons]
          simp only [List.nodup_cons, List.mem_cons, not_or, forall_eq_or_imp,
            pathsOf, List.mem_map, not_exists, not_and, imp_and, forall_and]
          constructor
          · rintro ⟨hA, ⟨hB, hC⟩, hD, hE, hF⟩
            exact ⟨⟨hB, hA⟩, ⟨hp, hC⟩, ⟨fun hmem => hE _ hmem rfl, hD⟩, ⟨hj, hF⟩⟩
          · rintro ⟨⟨hB, hA⟩, ⟨-, hC⟩, ⟨hE, hD⟩, ⟨-, hF⟩⟩
            exact ⟨hA, ⟨hB, hC⟩, hD, fun x hx hxe => hE (hxe ▸ hx), hF⟩
      · rw [if_neg ha]
        rw [validateProceduresLoop_ok_iff rest (p.path :: up) ua]
        rw [joinedOf_cons_neg rest ha, pathsOf_cons]
        simp only [List.nodup_cons, List.mem_cons, not_or, forall_eq_or_imp,
          pathsOf, List.mem_map, not_exists, not_and, imp_and, forall_and]
        constructor
        · rintro ⟨hA, ⟨hB, hC⟩, hD, hF⟩
          exact ⟨⟨hB, hA⟩, ⟨hp, hC⟩, hD, hF⟩
        · rintro ⟨⟨hB, hA⟩, ⟨-, hC⟩, hD, hF⟩
          exact ⟨hA, ⟨hB, hC⟩, hD, hF⟩

theorem validateProcedures_ok_iff (ps : List Procedure) :
    validateProcedures ps = .ok () ↔ ((pathsOf ps).Nodup ∧ (joinedOf ps).Nodup) := by
  rw [validateProcedures, validateProceduresLoop_ok_iff]
  simp

theorem newSpec_ok_iff (ps : List Procedure) :
    (∃ s, newSpec ps = .ok s) ↔
      (ps ≠ [] ∧ (pathsOf ps).Nodup ∧ (joinedOf ps).Nodup) := by
  unfold newSpec
  by_cases h0 : ps.length = 0
  · rw [if_pos h0]
    simp [List.length_eq_zero.mp h0]
  · have hne : ps ≠ [] := by
      intro h
      exact h0 (by simp [h])
    rw [if_neg h0]
    cases hv : validateProcedures ps with
    | error e =>
      have : ¬ ((pathsOf ps).Nodup ∧ (joinedOf ps).Nodup) := by
        intro hc
        rw [← validateProcedures_ok_iff] at hc
        rw [hv] at hc
        cases hc
      simp [hne, this]
    | ok u =>
      cases u
      have := (validateProcedures_ok_iff ps).mp hv
      simp [hne, this]

theorem newSpec_ok_inv {ps : List Procedure} {s : SpecS} (h : newSpec ps = .ok s) :
    s.procedures = ps ∧ s.pathToProcedure = buildPathMap ps
      ∧ validateProcedures ps = .ok () ∧ ps ≠ [] := by
  unfold newSpec at h
  by_cases h0 : ps.length = 0
  · rw [if_pos h0] at h
    cases h
  · rw [if_neg h0] at h
    cases hv : validateProcedures ps with
    | error e =>
      rw [hv] at h
      cases h
    | ok u =>
      cases u
      rw [hv] at h
      cases h
      refine ⟨rfl, rfl, rfl, ?_⟩
      intro hnil
      exact h0 (by simp [hnil])

theorem isOk_iff_exists_ok {α : Type} (x : Except Str α) :
    x.isOk = true ↔ ∃ a, x = .ok a := by
  cases x <;> simp [Except.isOk, Except.toBool]

/-- C2 (amended): NewSpec returns an error exactly when the sequence of
procedures is empty, two procedures share a path, or two procedures with
non-empty args share the same space-joined args string. NewSpec does not
itself re-validate individual procedures; their validity is established by
NewProcedure, the sole public Procedure constructor. -/
theorem C2_amended_newSpec_error_conditions (ps : List Procedure) :
    (newSpec ps).isOk = true ↔
      (ps ≠ [] ∧ (pathsOf ps).Nodup ∧ (joinedOf ps).Nodup) := by
  rw [isOk_iff_exists_ok]
  exact newSpec_ok_iff ps

/-- C2 counterexample: a Procedure value with an empty path is invalid
(validateProcedure rejects it), yet newSpec accepts a sequence containing
it: the constructor never re-checks per-procedure validity, refuting the
claim that NewSpec errors whenever a procedure is invalid. -/
theorem C2_counterexample_invalid_procedure_accepted :
    (newSpec [{ path := [], args := [] }]).isOk = true
    ∧ validateProcedure { path := [], args := [] }
        = .error (str "procedure path is empty") := by
  exact ⟨rfl, rfl⟩

theorem mergedProcedures_replicate_none :
    ∀ n : Nat, mergedProcedures (List.replicate n none) = []
  | 0 => rfl
  | n + 1 => mergedProcedures_replicate_none n

/-- C4: MergeSpecs skips nil inputs (merging `a, nil, b` equals merging
`a, b`, procedures in the same order), fails when every input is nil (no
procedures result), and fails whenever the concatenated procedures hold a
duplicate path or duplicate non-empty space-joined args. -/
theorem C4_MergeSpecs_properties (a b : SpecS) (n : Nat) (specs : List (Option SpecS)) :
    MergeSpecs [some a, none, some b] = MergeSpecs [some a, some b]
    ∧ (MergeSpecs (List.replicate n none)).isOk = false
    ∧ ((¬ (pathsOf (mergedProcedures specs)).Nodup
        ∨ ¬ (joinedOf (mergedProcedures specs)).Nodup) →
        (MergeSpecs specs).isOk = false) := by
  refine ⟨rfl, ?_, ?_⟩
  · rw [MergeSpecs, mergedProcedures_replicate_none n]
    rfl
  · intro hdup
    have hno : ¬ ∃ s, newSpec (mergedProcedures specs) = .ok s := by
      rw [newSpec_ok_iff]
      tauto
    rw [MergeSpecs]
    cases h : newSpec (mergedProcedures specs) with
    | error e => rfl
    | ok s => exact absurd ⟨s, h⟩ hno

theorem foldl_cons_pathmap :
    ∀ (ps : List Procedure) (acc : List (Str × Procedure)),
      List.foldl (fun m p => (p.path, p) :: m) acc ps
        = (ps.map fun p => (p.path, p)).reverse ++ acc
  | [], acc => by simp
  | p :: rest, acc => by
    rw [List.foldl_cons, foldl_cons_pathmap rest ((p.path, p) :: acc)]
    simp

theorem buildPathMap_eq (ps : List Procedure) :
    buildPathMap ps = (ps.map fun p => (p.path, p)).reverse := by
  rw [buildPathMap, foldl_cons_pathmap ps []]
  simp

theorem find?_nodup_keys :
    ∀ (l : List (Str × Procedure)) (k : Str) (v : Procedure),
      (l.map (·.1)).Nodup → (k, v) ∈ l →
      (l.find? fun e => decide (e.1 = k)) = some (k, v)
  | [], _, _, _, hm => by cases hm
  | (k1, v1) :: t, k, v, hnd, hm => by
    by_cases hk : k1 = k
    · subst hk
      rw [List.find?_cons_of_pos _ (by simp)]
      rcases List.mem_cons.mp hm with h | h
      · rw [h]
      · exfalso
        have hmem : k1 ∈ t.map (·.1) := List.mem_map.mpr ⟨(k1, v), h, rfl⟩
        exact (List.nodup_cons.mp hnd).1 hmem
    · rw [List.find?_cons_of_neg _ (by simp [hk])]
      refine find?_nodup_keys t k v (List.nodup_cons.mp hnd).2 ?_
      rcases List.mem_cons.mp hm with h | h
      · cases h
        exact absurd rfl hk
      · exact h

/-- C5: in a validly constructed Spec, ProcedureForPath returns each listed
procedure at its own path, and nil at any string that is no procedure's
path. -/
theorem C5_ProcedureForPath_lookup (ps : List Procedure) (s : SpecS)
    (h : newSpec ps = .ok s) :
    (∀ p ∈ Procedures s, ProcedureForPath s p.path = some p)
    ∧ (∀ x : Str, (∀ p ∈ Procedures s, p.path ≠ x) → ProcedureForPath s x = none) := by
  obtain ⟨hproc, hmap, hval, -⟩ := newSpec_ok_inv h
  have hnodup : (pathsOf ps).Nodup := ((validateProcedures_ok_iff ps).mp hval).1
  constructor
  · intro p hp
    rw [Procedures, hproc] at hp
    rw [ProcedureForPath, hmap, buildPathMap_eq]
    have hkeys : (((ps.map fun q => (q.path, q)).reverse).map (·.1)).Nodup := by
      rw [List.map_reverse, List.nodup_reverse, List.map_map]
      simpa [pathsOf, Function.comp] using hnodup
    have hmem : (p.path, p) ∈ (ps.map fun q => (q.path, q)).reverse := by
      rw [List.mem_reverse]
      exact List.mem_map.mpr ⟨p, hp, rfl⟩
    rw [find?_nodup_keys _ _ _ hkeys hmem]
    rfl
  · intro x hx
    rw [ProcedureForPath, hmap, buildPathMap_eq]
    have : ((ps.map fun q => (q.path, q)).reverse.find? fun e => decide (e.1 = x)) = none := by
      rw [List.find?_eq_none]
      intro e he
      rw [List.mem_reverse] at he
      obtain ⟨q, hq, rfl⟩ := List.mem_map.mp he
      have : q.path ≠ x := hx q (by rwa [Procedures, hproc])
      simpa using this
    rw [this]
    rfl

/-- C5 witness: a concrete two-procedure Spec; lookup finds each procedure
and misses an absent path. -/
theorem C5_witness_ProcedureForPath :
    ProcedureForPath { procedures := [{ path := str "/a", args := [] },
                                      { path := str "/b", args := [str "xy"] }],
                       pathToProcedure := [(str "/b", { path := str "/b", args := [str "xy"] }),
                                           (str "/a", { path := str "/a", args := [] })] }
        (str "/a")
      = some { path := str "/a", args := [] }
    ∧ ProcedureForPath { procedures := [{ path := str "/a", args := [] },
                                        { path := str "/b", args := [str "xy"] }],
                         pathToProcedure := [(str "/b", { path := str "/b", args := [str "xy"] }),
                                             (str "/a", { path := str "/a", args := [] })] }
        (str "/c")
      = none := by
  have h := C5_ProcedureForPath_lookup
    [{ path := str "/a", args := [] }, { path := str "/b", args := [str "xy"] }]
    { procedures := [{ path := str "/a", args := [] },
                     { path := str "/b", args := [str "xy"] }],
      pathToProcedure := [(str "/b", { path := str "/b", args := [str "xy"] }),
                          (str "/a", { path := str "/a", args := [] })] }
    rfl
  exact ⟨h.1 { path := str "/a", args := [] } (by decide), h.2 (str "/c") (by decide)⟩

theorem argTail_iff : ∀ t : Str,
    argTail t = true ↔
      ∃ mid b, t = mid ++ [b] ∧ (isAlphaChar b || isDigitChar b) = true
        ∧ ∀ x ∈ mid, isArgWordChar x = true
  | [] => by
    constructor
    · intro h
      cases h
    · rintro ⟨mid, b, heq, -, -⟩
      exact absurd heq.symm (by simp)
  | [c] => by
    simp only [argTail]
    constructor
    · intro h
      exact ⟨[], c, rfl, h, by simp⟩
    · rintro ⟨mid, b, heq, hb, hmid⟩
      cases mid with
      | nil =>
        simp only [List.nil_append, List.cons.injEq] at heq
        rw [heq.1]
        exact hb
      | cons m ms =>
        simp only [List.cons_append, List.cons.injEq] at heq
        exact absurd heq.2.symm (by simp)
  | c :: d :: rest => by
    have ih := argTail_iff (d :: rest)
    show (isArgWordChar c && argTail (d :: rest)) = true ↔ _
    rw [Bool.and_eq_true, ih]
    constructor
    · rintro ⟨hc, mid, b, heq, hb, hmid⟩
      refine ⟨c :: mid, b, by rw [List.cons_append, heq], hb, ?_⟩
      intro x hx
      rcases List.mem_cons.mp hx with rfl | hx1
      · exact hc
      · exact hmid x hx1
    · rintro ⟨mid, b, heq, hb, hmid⟩
      cases mid with
      | nil =>
        simp only [List.nil_append, List.cons.injEq] at heq
        exact absurd heq.2 (by simp)
      | cons m ms =>
        simp only [List.cons_append, List.cons.injEq] at heq
        obtain ⟨rfl, ht⟩ := heq
        refine ⟨hmid c (by simp), ms, b, ht, hb, ?_⟩
        intro x hx
        exact hmid x (List.mem_cons_of_mem c hx)

theorem argRegexpMatch_iff (s : Str) : argRegexpMatch s = true ↔ argMatchesSpec s := by
  cases s with
  | nil =>
    constructor
    · intro h
      cases h
    · rintro ⟨a, mid, b, heq, -⟩
      exact absurd heq.symm (by simp)
  | cons c cs =>
    show ((isAlphaChar c || isDigitChar c) && argTail cs) = true ↔ _
    rw [Bool.and_eq_true, argTail_iff]
    constructor
    · rintro ⟨hc, mid, b, heq, hb, hmid⟩
      exact ⟨c, mid, b, by rw [heq], hc, hb, hmid⟩
    · rintro ⟨a, mid, b, heq, ha, hb, hmid⟩
      simp only [List.cons.injEq] at heq
      obtain ⟨rfl, ht⟩ := heq
      exact ⟨ha, mid, b, ht, hb, hmid⟩

theorem length_le_utf8Len : ∀ s : Str, s.length ≤ utf8Len s
  | [] => le_refl _
  | c :: cs => by
    have hc : 1 ≤ c.utf8Size := Char.utf8Size_pos c
    have := length_le_utf8Len cs
    simp only [utf8Len, List.map_cons, List.sum_cons, List.length_cons] at *
    omega

theorem argMatchesSpec_utf8Len {s : Str} (h : argMatchesSpec s) :
    ¬ utf8Len s < minProcedureArgLength := by
  obtain ⟨a, mid, b, heq, -, -, -⟩ := h
  have hlen : 2 ≤ s.length := by
    rw [heq]
    simp only [List.length_cons, List.length_append, List.length_singleton]
    omega
  have := length_le_utf8Len s
  simp only [minProcedureArgLength]
  omega

theorem validateProcedureArgs_ok_iff : ∀ args : List Str,
    validateProcedureArgs args = .ok () ↔ ∀ a ∈ args, argMatchesSpec a
  | [] => by simp [validateProcedureArgs]
  | a :: rest => by
    rw [validateProcedureArgs]
    by_cases h1 : utf8Len a < minProcedureArgLength
    · rw [if_pos h1]
      constructor
      · intro h
        cases h
      · intro h
        exact absurd h1 (argMatchesSpec_utf8Len (h a (by simp)))
    · rw [if_neg h1]
      by_cases h2 : argRegexpMatch a = true
      · rw [if_neg (not_not_intro h2)]
        rw [validateProcedureArgs_ok_iff rest]
        constructor
        · intro h x hx
          rcases List.mem_cons.mp hx with rfl | hx1
          · exact (argRegexpMatch_iff x).mp h2
          · exact h x hx1
        · intro h x hx
          exact h x (List.mem_cons_of_mem a hx)
      · rw [if_pos h2]
        constructor
        · intro h
          cases h
        · intro h
          exact absurd ((argRegexpMatch_iff a).mpr (h a (by simp))) h2

/-- C3 (amended): NewProcedure(path, ProcedureWithArgs(args...)) succeeds
iff the path is non-empty and accepted by Go's url.ParseRequestURI — which
admits any absolute URI (also scheme-qualified ones without a leading `/`
and the literal `*`), so a leading `/` is NOT required — and every arg lies
in the language of `^[a-zA-Z0-9][a-zA-Z0-9_-]*[a-zA-Z0-9]$` (which forces
length at least 2 and no leading or trailing underscore or dash). -/
theorem C3_amended_newProcedure_validation (path : Str) (args : List Str) :
    (newProcedure path args).isOk = true ↔
      (path ≠ [] ∧ parseRequestURI path = true ∧ ∀ a ∈ args, argMatchesSpec a) := by
  rw [newProcedure]
  show (match validateProcedure { path := path, args := args } with
    | .error e => (Except.error e : Except Str Procedure)
    | .ok () => .ok { path := path, args := args }).isOk = true ↔ _
  rw [validateProcedure]
  by_cases hp : path = []
  · rw [if_pos hp]
    simp [Except.isOk, Except.toBool, hp]
  · rw [if_neg hp]
    by_cases hu : parseRequestURI path = true
    · rw [if_neg (not_not_intro hu)]
      cases hargs : validateProcedureArgs args with
      | error e =>
        have : ¬ ∀ a ∈ args, argMatchesSpec a := by
          rw [← validateProcedureArgs_ok_iff, hargs]
          intro h
          cases h
        simp [Except.isOk, Except.toBool, hp, hu, this]
      | ok u =>
        cases u
        have := (validateProcedureArgs_ok_iff args).mp hargs
        simp only [Except.isOk, Except.toBool, true_iff, eq_self_iff_true]
        exact ⟨hp, hu, this⟩
    · rw [if_pos hu]
      simp only [Except.isOk, Except.toBool]
      constructor
      · intro h
        cases h
      · rintro ⟨-, hu1, -⟩
        exact absurd hu1 hu

/-- C3 counterexample: NewProcedure accepts the path `*` (a special case of
url.ParseRequestURI), which does not begin with `/`, refuting the claim
that success requires an absolute URI beginning with `/`. -/
theorem C3_counterexample_star_path :
    (newProcedure (str "*") []).isOk = true ∧ (str "*").head? ≠ some '/' := by
  exact ⟨rfl, by decide⟩

end Pluginrpc
